import Mathlib

/-!
Verification of the signer resolution pipeline of the hanko repository.

The definitions below are a shallow embedding of the Rust sources:
  src/allowed_signers/file.rs   (Entry, PublicKey, File, update)
  src/allowed_signers/signer.rs (Signer::get_keys, get_entries)
  src/source/mod.rs             (Error taxonomy, error classifier,
                                 header parsing, link header pagination)
  src/source/github.rs          (GitHub adapter)
  src/source/gitlab.rs          (GitLab adapter)

Machine integers are modelled as Nat/Int, fallible code as Except/Option,
panics as a dedicated RunResult constructor, and the concurrent join-set
orchestration as a fold over the per-task outcomes in completion order.
-/

/- Equality of Except values is decidable componentwise; used to evaluate
theorems on concrete inputs. -/
deriving instance DecidableEq for Except

/- ### Timestamps

chrono represents a `DateTime<FixedOffset>` as the instant (a naive civil
datetime in UTC) together with the offset. `Eq`/`Ord` on a `DateTime`
compare only the instant, and `to_utc()` simply drops the offset. We model
the naive UTC instant by its civil fields. -/

/-- A naive civil datetime, modelling the UTC instant stored by chrono. -/
structure NaiveDateTime where
  year : Int
  month : Nat
  day : Nat
  hour : Nat
  minute : Nat
  second : Nat
deriving DecidableEq, Repr

/-- A chrono DateTime with a fixed offset: the UTC instant plus the offset in
seconds. Only the instant takes part in equality, ordering and in
serialization to UTC. -/
structure DateTimeFixedOffset where
  naive_utc : NaiveDateTime
  offset_seconds : Int
deriving DecidableEq, Repr

/-- The `to_utc()` conversion of chrono: the stored instant, the offset is
dropped. -/
def DateTimeFixedOffset.to_utc (d : DateTimeFixedOffset) : NaiveDateTime :=
  d.naive_utc

/-- Zero-pad a natural number to two digits, as the chrono format specifiers
`%m %d %H %M %S` do. -/
def pad2 (n : Nat) : String :=
  if n < 10 then "0" ++ toString n else toString n

/-- Zero-pad a natural number to four digits. -/
def pad4 (n : Nat) : String :=
  if n < 10 then "000" ++ toString n
  else if n < 100 then "00" ++ toString n
  else if n < 1000 then "0" ++ toString n
  else toString n

/-- Rendering of a year by the chrono `%Y` specifier: zero-padded to four
digits; years outside 0..=9999 carry a sign. -/
def formatYear (y : Int) : String :=
  if y < 0 then "-" ++ pad4 y.natAbs
  else if y > 9999 then "+" ++ toString y.natAbs
  else pad4 y.natAbs

/-- Rendering of a naive datetime by the chrono format string
`%Y%m%d%H%M%S` (the TIMESTAMP_FMT constant of file.rs). -/
def NaiveDateTime.format (t : NaiveDateTime) : String :=
  formatYear t.year ++ pad2 t.month ++ pad2 t.day
    ++ pad2 t.hour ++ pad2 t.minute ++ pad2 t.second

/- ### The entry model (src/allowed_signers/file.rs) -/

/-- The SSH public key contained in an entry. -/
structure PublicKey where
  blob : String
  valid_after : Option DateTimeFixedOffset
  valid_before : Option DateTimeFixedOffset
deriving DecidableEq, Repr

/-- An entry in the allowed signers file. -/
structure Entry where
  principals : List String
  key : PublicKey
deriving DecidableEq, Repr

/-- The constructor `Entry::new`, which asserts that the principals are
non-empty. The `none` result models the panic of the failed assertion. -/
def Entry.new (principals : List String) (key : PublicKey) : Option Entry :=
  if principals.isEmpty then none
  else some { principals := principals, key := key }

/-- The `Display` implementation for `Entry`: principals joined by commas,
an optional valid-after timestamp, an optional valid-before timestamp, then
the key blob. Timestamps are converted to UTC and suffixed with Z. -/
def Entry.display (e : Entry) : String :=
  String.intercalate "," e.principals
    ++ (match e.key.valid_after with
        | some t => " valid-after=" ++ t.to_utc.format ++ "Z"
        | none => "")
    ++ (match e.key.valid_before with
        | some t => " valid-before=" ++ t.to_utc.format ++ "Z"
        | none => "")
    ++ " " ++ e.key.blob

/-- The line format as the specification words it: principal_1,principal_2,...
followed by an optional valid-after timestamp, an optional valid-before
timestamp (in that order, each present exactly when the key carries the
corresponding timestamp), a space and the key blob, where each timestamp is
converted to UTC, rendered YYYYMMDDHHMMSS with a trailing Z. Stated
independently of the source for the refinement proof of claim C4. -/
def entrySpecLine (e : Entry) : String :=
  let ts : DateTimeFixedOffset → String := fun d => d.naive_utc.format ++ "Z"
  String.intercalate "," e.principals
    ++ (match e.key.valid_after with
        | some t => " valid-after=" ++ ts t
        | none => "")
    ++ (match e.key.valid_before with
        | some t => " valid-before=" ++ ts t
        | none => "")
    ++ " " ++ e.key.blob

/-- Replacement of the offset carried on a datetime, leaving the instant
unchanged. Used to state that serialization is offset-independent. -/
def DateTimeFixedOffset.withOffset (d : DateTimeFixedOffset) (o : Int) :
    DateTimeFixedOffset :=
  { d with offset_seconds := o }

/-- Replacement of the offsets carried on the validity window of an entry. -/
def Entry.withOffsets (e : Entry) (o₁ o₂ : Int) : Entry :=
  { e with
    key :=
      { e.key with
        valid_after := e.key.valid_after.map (fun d => d.withOffset o₁)
        valid_before := e.key.valid_before.map (fun d => d.withOffset o₂) } }

/- ### Comparators modelling the derived Rust Ord instances

The derived Ord of the Rust structs compares fields in declaration order.
Strings compare bytewise, which for UTF-8 agrees with comparing the
codepoint sequences. Vec and Option compare lexicographically with the
shorter prefix first and None below Some. chrono DateTime values compare
by instant, ignoring the offset. -/

/-- Three-way comparison on Nat. -/
def cmpNat (a b : Nat) : Ordering :=
  if a < b then .lt else if a = b then .eq else .gt

/-- Three-way comparison on Int. -/
def cmpInt (a b : Int) : Ordering :=
  if a < b then .lt else if a = b then .eq else .gt

/-- Three-way comparison on Char, by codepoint. -/
def cmpChar (a b : Char) : Ordering :=
  cmpNat a.toNat b.toNat

/-- Lexicographic comparison of lists, the Ord of Vec: element by element,
with a strict prefix ordered first. -/
def cmpList (c : α → α → Ordering) : List α → List α → Ordering
  | [], [] => .eq
  | [], _ :: _ => .lt
  | _ :: _, [] => .gt
  | a :: as, b :: bs => (c a b).then (cmpList c as bs)

/-- Bytewise comparison of strings, the Ord of Rust String. -/
def cmpStr (s t : String) : Ordering :=
  cmpList cmpChar s.data t.data

/-- Comparison of options, the Ord of Option: None orders below Some. -/
def cmpOpt (c : α → α → Ordering) : Option α → Option α → Ordering
  | none, none => .eq
  | none, some _ => .lt
  | some _, none => .gt
  | some a, some b => c a b

/-- Comparison of naive datetimes, field by field. -/
def NaiveDateTime.cmp (a b : NaiveDateTime) : Ordering :=
  (cmpInt a.year b.year).then <| (cmpNat a.month b.month).then <|
    (cmpNat a.day b.day).then <| (cmpNat a.hour b.hour).then <|
      (cmpNat a.minute b.minute).then (cmpNat a.second b.second)

/-- Comparison of chrono datetimes: by instant, the offset is ignored. -/
def DateTimeFixedOffset.cmp (a b : DateTimeFixedOffset) : Ordering :=
  a.naive_utc.cmp b.naive_utc

/-- The derived Ord of PublicKey: blob, then valid_after, then valid_before. -/
def PublicKey.cmp (a b : PublicKey) : Ordering :=
  (cmpStr a.blob b.blob).then <|
    (cmpOpt DateTimeFixedOffset.cmp a.valid_after b.valid_after).then
      (cmpOpt DateTimeFixedOffset.cmp a.valid_before b.valid_before)

/-- The derived Ord of Entry: principals, then key. -/
def Entry.cmp (a b : Entry) : Ordering :=
  (cmpList cmpStr a.principals b.principals).then (PublicKey.cmp a.key b.key)

/- ### Offset-stripped signatures

Equality, ordering and serialization of entries all ignore the offsets
carried on the validity window. The signature of an entry is the entry with
the offsets stripped; it determines the behaviour of an entry completely. -/

/-- A public key with the offsets of the validity window stripped. -/
structure PublicKeySig where
  blob : String
  valid_after : Option NaiveDateTime
  valid_before : Option NaiveDateTime
deriving DecidableEq, Repr

/-- An entry with the offsets of the validity window stripped. -/
structure EntrySig where
  principals : List String
  key : PublicKeySig
deriving DecidableEq, Repr

/-- The signature of an entry. -/
def Entry.sig (e : Entry) : EntrySig :=
  { principals := e.principals
    key :=
      { blob := e.key.blob
        valid_after := e.key.valid_after.map DateTimeFixedOffset.to_utc
        valid_before := e.key.valid_before.map DateTimeFixedOffset.to_utc } }

/-- Comparison of key signatures, mirroring PublicKey.cmp. -/
def PublicKeySig.cmp (a b : PublicKeySig) : Ordering :=
  (cmpStr a.blob b.blob).then <|
    (cmpOpt NaiveDateTime.cmp a.valid_after b.valid_after).then
      (cmpOpt NaiveDateTime.cmp a.valid_before b.valid_before)

/-- Comparison of entry signatures, mirroring Entry.cmp. -/
def EntrySig.cmp (a b : EntrySig) : Ordering :=
  (cmpList cmpStr a.principals b.principals).then (PublicKeySig.cmp a.key b.key)

/-- Serialization of an entry signature; Entry.display factors through it. -/
def EntrySig.display (e : EntrySig) : String :=
  String.intercalate "," e.principals
    ++ (match e.key.valid_after with
        | some t => " valid-after=" ++ t.format ++ "Z"
        | none => "")
    ++ (match e.key.valid_before with
        | some t => " valid-before=" ++ t.format ++ "Z"
        | none => "")
    ++ " " ++ e.key.blob

/- ### The allowed signers file (src/allowed_signers/file.rs) -/

/-- Ordered insertion into a strictly sorted list, modelling
BTreeSet::insert: an element comparing equal to a stored one is dropped,
keeping the stored element. -/
def insertOrd (c : α → α → Ordering) : List α → α → List α
  | [], e => [e]
  | a :: as, e =>
    match c e a with
    | .lt => e :: a :: as
    | .eq => a :: as
    | .gt => a :: insertOrd c as e

/-- The allowed signers file: a path and the entry set. The BTreeSet of the
source is modelled as the strictly sorted list of its elements. -/
structure File where
  path : String
  entries : List Entry

/-- File::from_entries: collect the entries into the BTreeSet. -/
def File.from_entries (path : String) (entries : List Entry) : File :=
  { path := path, entries := entries.foldl (insertOrd Entry.cmp) [] }

/-- The bytes produced by File::write: each entry of the set in ascending
order on a line of its own, then one final empty line. Only the written
bytes are modelled; the io layer is assumed to not fail. -/
def File.render (f : File) : String :=
  String.join (f.entries.map (fun e => e.display ++ "\n")) ++ "\n"

/- ### The source error taxonomy (src/source/mod.rs) -/

/-- The ServerError enum of src/source/mod.rs. Status codes are Nat. The
messages interpolated into InvalidResponseHeader by the source are kept as
fixed diagnostic strings. -/
inductive ServerError where
  | InvalidResponseHeader (name : String) (msg : String)
  | InvalidResponseBody
  | StatusCode (code : Nat)
deriving DecidableEq, Repr

/-- The Error enum of src/source/mod.rs. -/
inductive Error where
  | BadCredentials
  | RatelimitExceeded
  | UserNotFound
  | ConnectionError
  | ServerError (e : ServerError)
  | ClientError (code : Nat)
deriving DecidableEq, Repr

/-- Boolean test for the Ok variant of an Except value. -/
def isOkE : Except ε α → Bool
  | .ok _ => true
  | .error _ => false

/- ### The error classifier (impl From of reqwest Error, src/source/mod.rs) -/

/-- The observable shape of a reqwest error: the predicates the classifier
branches on. A reqwest error carries at most one status code and the error
kind flags are as reported by the corresponding methods. -/
structure ReqwestError where
  is_connect : Bool
  is_timeout : Bool
  is_status : Bool
  status : Option Nat
  is_body : Bool
  is_decode : Bool
deriving DecidableEq, Repr

/-- StatusCode::is_server_error of the http crate: 500..=599. -/
def statusIsServerError (s : Nat) : Bool :=
  decide (500 ≤ s ∧ s ≤ 599)

/-- StatusCode::is_client_error of the http crate: 400..=499. -/
def statusIsClientError (s : Nat) : Bool :=
  decide (400 ≤ s ∧ s ≤ 499)

/-- The shared error classifier, the From conversion of reqwest errors in
src/source/mod.rs. The `none` result models the panic taken on an error
shape outside the classified cases, including the expect on a status error
without a status code. -/
def Error.fromReqwest (e : ReqwestError) : Option Error :=
  if e.is_connect || e.is_timeout then
    some .ConnectionError
  else if e.is_status then
    match e.status with
    | none => none
    | some s =>
      if statusIsServerError s then some (.ServerError (.StatusCode s))
      else if statusIsClientError s then some (.ClientError s)
      else if e.is_body || e.is_decode then
        some (.ServerError .InvalidResponseBody)
      else none
  else if e.is_body || e.is_decode then
    some (.ServerError .InvalidResponseBody)
  else none

/-- A reqwest error as synthesized by error_for_status for a response with
the given status code. -/
def statusError (s : Nat) : ReqwestError :=
  { is_connect := false, is_timeout := false, is_status := true
    status := some s, is_body := false, is_decode := false }

/-- A reqwest error as produced by a body that fails to decode. -/
def decodeError : ReqwestError :=
  { is_connect := false, is_timeout := false, is_status := false
    status := none, is_body := false, is_decode := true }

/- ### The resolution orchestrator (src/allowed_signers/signer.rs)

The join set completes the per-source tasks in an unspecified order; the
outcomes of one signer are modelled as the list of per-source results in
completion order, and the fold below mirrors the loop draining the set. -/

/-- The per-source outcome policy applied inside Signer::get_keys:
UserNotFound is softened into an empty key list, every other error is kept.
The warning logged for an empty key list and for UserNotFound is a side
effect without influence on the result. -/
def handleSourceOutcome :
    Except Error (List PublicKey) → Except Error (List PublicKey)
  | .ok keys => .ok keys
  | .error .UserNotFound => .ok []
  | .error .ConnectionError => .error .ConnectionError
  | .error e => .error e

/-- Signer::get_keys: drain the join set, extending the key list with every
softened outcome and returning the first hard error encountered. -/
def Signer.get_keys :
    List (Except Error (List PublicKey)) → Except Error (List PublicKey)
  | [] => .ok []
  | r :: rs =>
    match handleSourceOutcome r with
    | .error e => .error e
    | .ok ks =>
      match Signer.get_keys rs with
      | .error e => .error e
      | .ok rest => .ok (ks ++ rest)

/-- Outcome of running a piece of the pipeline: a panic, an error, or a
value. -/
inductive RunResult (α : Type) where
  | panic
  | error (e : Error)
  | ok (v : α)
deriving DecidableEq, Repr

/-- Boolean test for an error outcome other than UserNotFound. -/
def RunResult.isHardError : RunResult α → Bool
  | .error e => e != .UserNotFound
  | _ => false

/-- Elementwise collection of a list of optional values; `none` when any
element is `none`. -/
def optionList : List (Option α) → Option (List α)
  | [] => some []
  | none :: _ => none
  | some a :: rest =>
    match optionList rest with
    | none => none
    | some as => some (a :: as)

/-- One signer as seen by the orchestrator: its principals together with
the per-source outcomes of its resolution tasks in completion order. The
username only selects what the sources return and is kept for fidelity. -/
structure SignerRun where
  name : String
  principals : List String
  outcomes : List (Except Error (List PublicKey))

/-- Signer::get_entries: resolve the keys of the signer, then wrap every
key into an entry carrying the principals of the signer. A panic arises
from Entry::new when the principals are empty. -/
def Signer.get_entries (s : SignerRun) : RunResult (List Entry) :=
  match Signer.get_keys s.outcomes with
  | .error e => .error e
  | .ok keys =>
    match optionList (keys.map (Entry.new s.principals)) with
    | none => .panic
    | some entries => .ok entries

/-- The free function get_entries: drain the per-signer join set, extending
the entry list and propagating the first hard failure. -/
def get_entries : List SignerRun → RunResult (List Entry)
  | [] => .ok []
  | s :: ss =>
    match Signer.get_entries s with
    | .panic => .panic
    | .error e => .error e
    | .ok es =>
      match get_entries ss with
      | .panic => .panic
      | .error e => .error e
      | .ok rest => .ok (es ++ rest)

/-- The update operation of src/allowed_signers/file.rs over the contents
of the target file (`none` when the file does not exist): resolve all
entries first and only on success create/truncate the file and write the
rendered bytes. On a hard failure the previous contents are untouched. -/
def update (path : String) (fs : Option String) (signers : List SignerRun) :
    RunResult Unit × Option String :=
  match get_entries signers with
  | .panic => (.panic, fs)
  | .error e => (.error e, fs)
  | .ok entries => (.ok (), some (File.render (File.from_entries path entries)))

/- ### Header handling (src/source/mod.rs) -/

/-- A raw HTTP header value: either text, or bytes that are not valid
UTF-8 (on which HeaderValue::to_str fails). -/
inductive HeaderValue where
  | valid (s : String)
  | invalidUtf8
deriving DecidableEq, Repr

/-- get_header_value: look the header up and require its value to be text.
The argument is the value stored under the requested name, if any. -/
def get_header_value (name : String) (h : Option HeaderValue) :
    Except Error (Option String) :=
  match h with
  | none => .ok none
  | some (.valid s) => .ok (some s)
  | some .invalidUtf8 =>
    .error (.ServerError (.InvalidResponseHeader name "value is not valid UTF-8"))

/-- parse_header_value: a present header whose value does not parse is an
InvalidResponseHeader server error; an absent header is `none`. The Rust
message interpolates the parse error, kept here as a fixed diagnostic. -/
def parse_header_value (parse : String → Option α) (name : String)
    (h : Option HeaderValue) : Except Error (Option α) :=
  match get_header_value name h with
  | .error e => .error e
  | .ok none => .ok none
  | .ok (some s) =>
    match parse s with
    | some v => .ok (some v)
    | none => .error (.ServerError (.InvalidResponseHeader name "value is not valid"))

/-- Digit accumulation for integer parsing; `none` on a non-digit or on an
empty input. -/
def parseDigits : List Char → Option Nat
  | [] => none
  | cs => go cs 0
where
  go : List Char → Nat → Option Nat
    | [], acc => some acc
    | c :: rest, acc =>
      if c.isDigit then go rest (acc * 10 + (c.toNat - 48)) else none

/-- str::parse for usize: an optional leading plus sign, then only digits,
and the value must fit the 64 bit target word. -/
def parseUsize (s : String) : Option Nat :=
  let cs := match s.data with
    | '+' :: rest => rest
    | cs => cs
  match parseDigits cs with
  | some n => if n < 2 ^ 64 then some n else none
  | none => none

/-- str::parse for i64: an optional sign, then only digits, and the value
must fit a signed 64 bit word. -/
def parseI64 (s : String) : Option Int :=
  let (neg, cs) : Bool × List Char := match s.data with
    | '+' :: rest => (false, rest)
    | '-' :: rest => (true, rest)
    | cs => (false, cs)
  match parseDigits cs with
  | some n =>
    if neg then
      if n ≤ 2 ^ 63 then some (-(n : Int)) else none
    else
      if n < 2 ^ 63 then some (n : Int) else none
  | none => none

/-- Modelled from chrono: Local.timestamp_opt(secs, 0).single() is a unique
instant exactly when the instant is representable. The exact bounds of the
representable range are not relied upon by any theorem below. -/
def localTimestampSingle (secs : Int) : Bool :=
  decide (-8334601228800 ≤ secs ∧ secs ≤ 8210266876799)

/-- log_ratelimit of src/source/github.rs: parse both rate limit headers,
and when both are present convert the reset instant for logging. The trace
output is a side effect without influence on the result. -/
def log_ratelimit (hrem hres : Option HeaderValue) : Except Error Unit := do
  let rem ← parse_header_value parseUsize "x-ratelimit-remaining" hrem
  let res ← parse_header_value parseI64 "x-ratelimit-reset" hres
  match rem, res with
  | some _, some reset =>
    if localTimestampSingle reset then .ok ()
    else
      .error (.ServerError (.InvalidResponseHeader "x-ratelimit-reset"
        "value does not map to a unique instant"))
  | _, _ => .ok ()

/- ### Link header pagination (src/source/mod.rs) -/

/-- Test whether the pattern list occurs at the start of the list. -/
def listStartsWith [DecidableEq α] : List α → List α → Bool
  | [], _ => true
  | _ :: _, [] => false
  | p :: ps, a :: as => p = a && listStartsWith ps as

/-- Test whether the needle occurs contiguously anywhere in the haystack,
modelling str::contains. -/
def listContainsSub [DecidableEq α] (needle : List α) : List α → Bool
  | [] => listStartsWith needle []
  | a :: as => listStartsWith needle (a :: as) || listContainsSub needle as

/-- String containment, modelling str::contains with a string pattern. -/
def strContainsSub (hay needle : String) : Bool :=
  listContainsSub needle.data hay.data

/-- str::strip_prefix with a string pattern: the remainder after the
pattern when the string starts with it. -/
def dropPre (pat s : String) : Option String :=
  if listStartsWith pat.data s.data then
    some (String.mk (s.data.drop pat.data.length))
  else none

/-- str::trim_matches with a quote character: remove every leading and
trailing double quote. -/
def trimQuotes (s : String) : String :=
  String.mk (((s.data.dropWhile (· = '"')).reverse.dropWhile (· = '"')).reverse)

/-- str::strip_prefix of an opening angle bracket composed with
strip_suffix of a closing one. -/
def stripAngle (s : String) : Option String :=
  match s.data with
  | '<' :: rest =>
    match rest.getLast? with
    | some '>' => some (String.mk rest.dropLast)
    | _ => none
  | _ => none

/-- Splitting of a character list at every occurrence of a separator, the
semantics of the Rust char split: adjacent separators and separators at the
ends produce empty segments, and the result is never empty. -/
def splitOnChar (sep : Char) : List Char → List (List Char)
  | [] => [[]]
  | c :: rest =>
    match splitOnChar sep rest with
    | [] => if c = sep then [[], []] else [[c]]
    | h :: t => if c = sep then [] :: h :: t else (c :: h) :: t

/-- String splitting at a separator character. -/
def strSplitOnChar (sep : Char) (s : String) : List String :=
  (splitOnChar sep s.data).map String.mk

/-- str::trim: remove leading and trailing whitespace. -/
def strTrim (s : String) : String :=
  String.mk (((s.data.dropWhile Char.isWhitespace).reverse.dropWhile
    Char.isWhitespace).reverse)

/-- Modelled from the url crate interface: Url::parse succeeds on an
absolute URL. Validity is simplified to a non-empty alphabetic scheme
followed by the scheme separator and a non-empty remainder, and parsed URLs
compare for equality as their raw text; the normalization the url crate
performs is not modelled. -/
abbrev Url := String

/-- Simplified Url::parse, see the comment on Url. -/
def urlParse (s : String) : Option Url :=
  let cs := s.data
  let scheme := cs.takeWhile Char.isAlpha
  let rest := cs.drop scheme.length
  if scheme ≠ [] && listStartsWith [':', '/', '/'] rest
      && rest.drop 3 ≠ [] then
    some s
  else none

/-- The InvalidResponseHeader error produced for a malformed link header. -/
def invalidLinkHeader : Error :=
  .ServerError (.InvalidResponseHeader "link" "format is invalid")

/-- The parameter scan of one link header segment: an empty rel value is an
error, and the segment is a next segment when some parameter carries
rel equal to next. -/
def paramsIsNext : List String → Except Error Bool
  | [] => .ok false
  | p :: ps =>
    match dropPre "rel=" (strTrim p) with
    | none => paramsIsNext ps
    | some rel =>
      let rel := trimQuotes rel
      if rel = "" then .error invalidLinkHeader
      else
        match paramsIsNext ps with
        | .error e => .error e
        | .ok b => .ok (b || rel == "next")

/-- The segment scan of next_url_from_link_header: the first next segment
must carry an angle bracketed parseable URL, which is returned. -/
def segmentsNextUrl : List String → Except Error (Option Url)
  | [] => .ok none
  | seg :: rest =>
    let parts := strSplitOnChar ';' (strTrim seg)
    let urlPart := strTrim (parts.headD "")
    match paramsIsNext parts.tail with
    | .error e => .error e
    | .ok false => segmentsNextUrl rest
    | .ok true =>
      match stripAngle urlPart with
      | none => .error invalidLinkHeader
      | some u =>
        match urlParse u with
        | some url => .ok (some url)
        | none => .error invalidLinkHeader

/-- next_url_from_link_header: split the link header value on commas and
scan the segments for a next URL. -/
def next_url_from_link_header (h : Option HeaderValue) :
    Except Error (Option Url) :=
  match get_header_value "link" h with
  | .error e => .error e
  | .ok none => .ok none
  | .ok (some v) => segmentsNextUrl (strSplitOnChar ',' v)

/- ### The GitHub adapter (src/source/github.rs) -/

/-- A reqwest transport outcome: a transport level failure or a response. -/
inductive ReqwestResult (ρ : Type) where
  | failed (e : ReqwestError)
  | responded (r : ρ)

/-- An intermediary SSH key as returned by the GitHub API. -/
structure GithubApiSshKey where
  key : String
deriving DecidableEq, Repr

/-- The From conversion of a GitHub API key into a PublicKey: the blob is
the key string and there is no validity window. -/
def PublicKey.ofGithubApiSshKey (k : GithubApiSshKey) : PublicKey :=
  { blob := k.key, valid_after := none, valid_before := none }

/-- The observable shape of a GitHub API response: the status code, the
body decoded as a message object when possible, the relevant headers, and
the body decoded as a key array when possible. -/
structure GithubResponse where
  status : Nat
  message : Option String
  link : Option HeaderValue
  ratelimitRemaining : Option HeaderValue
  ratelimitReset : Option HeaderValue
  keys : Option (List GithubApiSshKey)
deriving DecidableEq, Repr

/-- handle_github_errors: propagate transport errors through the shared
classifier; on an error status map 404 to UserNotFound, 403 with a rate
limit message to RatelimitExceeded, 401 with a bad credentials message to
BadCredentials, and everything else through the shared classifier. -/
def handle_github_errors (t : ReqwestResult GithubResponse) :
    RunResult GithubResponse :=
  match t with
  | .failed e =>
    match Error.fromReqwest e with
    | none => .panic
    | some err => .error err
  | .responded r =>
    if statusIsClientError r.status || statusIsServerError r.status then
      if r.status = 404 then .error .UserNotFound
      else if r.status = 403
          && (match r.message with
              | some m => strContainsSub m.toLower "rate limit exceeded"
              | none => false) then
        .error .RatelimitExceeded
      else if r.status = 401
          && (match r.message with
              | some m => strContainsSub m.toLower "bad credentials"
              | none => false) then
        .error .BadCredentials
      else
        match Error.fromReqwest (statusError r.status) with
        | none => .panic
        | some err => .error err
    else .ok r

/-- make_api_request of the GitHub adapter: handle the HTTP errors, then
log the rate limit headers, which can itself fail. -/
def Github.make_api_request (t : ReqwestResult GithubResponse) :
    RunResult GithubResponse :=
  match handle_github_errors t with
  | .panic => .panic
  | .error e => .error e
  | .ok r =>
    match log_ratelimit r.ratelimitRemaining r.ratelimitReset with
    | .error e => .error e
    | .ok _ => .ok r

/-- Github::get_keys_by_username: follow the pagination loop starting from
the signing keys URL of the user. The network is a function from the URL to
the transport outcome, and the fuel bounds the number of iterations the
model unfolds; the theorems below only use the step equations, never the
value at exhausted fuel. A malformed link header is swallowed with a
warning and stops pagination; a next URL equal to the one just fetched is
not followed. -/
def Github.get_keys_by_username (server : Url → ReqwestResult GithubResponse) :
    Nat → Option Url → RunResult (List PublicKey)
  | _, none => .ok []
  | 0, some _ => .ok []
  | fuel + 1, some current =>
    match Github.make_api_request (server current) with
    | .panic => .panic
    | .error e => .error e
    | .ok r =>
      let nextPage : Option Url :=
        match next_url_from_link_header r.link with
        | .ok u => u
        | .error _ => none
      match r.keys with
      | none =>
        match Error.fromReqwest decodeError with
        | none => .panic
        | some err => .error err
      | some apiKeys =>
        let pageKeys := apiKeys.map PublicKey.ofGithubApiSshKey
        let nextUrl : Option Url :=
          match nextPage with
          | some candidate => if candidate ≠ current then some candidate else none
          | none => none
        match Github.get_keys_by_username server fuel nextUrl with
        | .panic => .panic
        | .error e => .error e
        | .ok rest => .ok (pageKeys ++ rest)

/- ### The GitLab adapter (src/source/gitlab.rs) -/

/-- The usage_type attribute of a GitLab SSH key. -/
inductive ApiSshKeyUsage where
  | auth
  | signing
  | auth_and_signing
deriving DecidableEq, Repr

/-- Returns true if the key is used for signing. -/
def ApiSshKeyUsage.is_signing : ApiSshKeyUsage → Bool
  | .signing => true
  | .auth_and_signing => true
  | .auth => false

/-- An intermediary SSH key as returned by the GitLab API. -/
structure GitlabApiSshKey where
  key : String
  expires_at : Option DateTimeFixedOffset
  usage_type : ApiSshKeyUsage
deriving DecidableEq, Repr

/-- The From conversion of a GitLab API key into a PublicKey: the blob is
the key string, expires_at becomes valid_before, and there is no
valid_after. -/
def PublicKey.ofGitlabApiSshKey (k : GitlabApiSshKey) : PublicKey :=
  { blob := k.key, valid_after := none, valid_before := k.expires_at }

/-- The observable shape of a GitLab API response. -/
structure GitlabResponse where
  status : Nat
  link : Option HeaderValue
  keys : Option (List GitlabApiSshKey)
deriving DecidableEq, Repr

/-- handle_gitlab_errors: propagate transport errors through the shared
classifier; on an error status map 404 to UserNotFound, 401 to
BadCredentials, and everything else through the shared classifier. -/
def handle_gitlab_errors (t : ReqwestResult GitlabResponse) :
    RunResult GitlabResponse :=
  match t with
  | .failed e =>
    match Error.fromReqwest e with
    | none => .panic
    | some err => .error err
  | .responded r =>
    if statusIsClientError r.status || statusIsServerError r.status then
      if r.status = 404 then .error .UserNotFound
      else if r.status = 401 then .error .BadCredentials
      else
        match Error.fromReqwest (statusError r.status) with
        | none => .panic
        | some err => .error err
    else .ok r

/-- The per-page key extraction of the GitLab adapter: keep just the
signing keys and turn those into public keys. -/
def gitlabPageKeys (page : List GitlabApiSshKey) : List PublicKey :=
  (page.filter (fun k => k.usage_type.is_signing)).map PublicKey.ofGitlabApiSshKey

/-- The per-page key extraction as the specification words it: exactly the
keys whose usage_type is signing or auth_and_signing are kept, and each
becomes a public key whose blob is the API key string, whose valid_before
is the expires_at attribute when present, and whose valid_after is always
absent. Stated independently of the source for the refinement proof of
claim C3. -/
def gitlabPageKeysSpec (page : List GitlabApiSshKey) : List PublicKey :=
  (page.filter (fun k =>
      k.usage_type = .signing ∨ k.usage_type = .auth_and_signing)).map
    (fun k =>
      { blob := k.key, valid_after := none, valid_before := k.expires_at })

/-- Gitlab::get_keys_by_username: the same pagination loop as the GitHub
adapter, without rate limit logging and with the signing filter applied to
every page. -/
def Gitlab.get_keys_by_username (server : Url → ReqwestResult GitlabResponse) :
    Nat → Option Url → RunResult (List PublicKey)
  | _, none => .ok []
  | 0, some _ => .ok []
  | fuel + 1, some current =>
    match handle_gitlab_errors (server current) with
    | .panic => .panic
    | .error e => .error e
    | .ok r =>
      let nextPage : Option Url :=
        match next_url_from_link_header r.link with
        | .ok u => u
        | .error _ => none
      match r.keys with
      | none =>
        match Error.fromReqwest decodeError with
        | none => .panic
        | some err => .error err
      | some allKeys =>
        let pageKeys := gitlabPageKeys allKeys
        let nextUrl : Option Url :=
          match nextPage with
          | some candidate => if candidate ≠ current then some candidate else none
          | none => none
        match Gitlab.get_keys_by_username server fuel nextUrl with
        | .panic => .panic
        | .error e => .error e
        | .ok rest => .ok (pageKeys ++ rest)

/- ### Comparator laws -/

/-- Laws of a strict three-way comparator: equality readings coincide with
propositional equality, swapping the arguments swaps the ordering, and the
strict reading is transitive. -/
structure StrictCmpLaws (c : α → α → Ordering) : Prop where
  eq_iff : ∀ a b, c a b = .eq ↔ a = b
  symm : ∀ a b, (c a b).swap = c b a
  lt_trans : ∀ {a b d}, c a b = .lt → c b d = .lt → c a d = .lt

/-- Strict sortedness of a list with respect to a comparator. -/
def sortedBy (c : α → α → Ordering) (l : List α) : Prop :=
  List.Chain' (fun a b => c a b = .lt) l

/- ### Sample values used to instantiate theorems on concrete inputs -/

/-- A sample key without a validity window. -/
def sampleKeyA : PublicKey :=
  { blob := "ssh-ed25519 AAAA1", valid_after := none, valid_before := none }

/-- A sample instant. -/
def sampleInstant : NaiveDateTime :=
  { year := 2030, month := 1, day := 1, hour := 0, minute := 0, second := 0 }

/-- A sample key expiring at the sample instant, carried with the given
offset. -/
def sampleKeyB (off : Int) : PublicKey :=
  { blob := "ssh-ed25519 AAAA2", valid_after := none
    valid_before := some { naive_utc := sampleInstant, offset_seconds := off } }

/-- A sample single principal entry with the plain sample key. -/
def sampleEntryA : Entry :=
  { principals := ["a@example.com"], key := sampleKeyA }

/-- A sample single principal entry with the expiring sample key. -/
def sampleEntryB (off : Int) : Entry :=
  { principals := ["b@example.com"], key := sampleKeyB off }

/- ### Basic comparator lemmas -/

theorem cmpNat_lt {a b : Nat} : cmpNat a b = .lt ↔ a < b := by
  unfold cmpNat; split_ifs with h₁ h₂ <;> simp [h₁]

theorem cmpNat_eq_eq {a b : Nat} : cmpNat a b = .eq ↔ a = b := by
  unfold cmpNat
  split_ifs with h₁ h₂
  · simp; omega
  · simp [h₂]
  · simp; omega

theorem cmpNat_swap (a b : Nat) : (cmpNat a b).swap = cmpNat b a := by
  unfold cmpNat
  split_ifs <;> first | rfl | (exfalso; omega)

theorem cmpNat_lt_trans {a b d : Nat} (h₁ : cmpNat a b = .lt)
    (h₂ : cmpNat b d = .lt) : cmpNat a d = .lt := by
  rw [cmpNat_lt] at *; omega

theorem cmpInt_lt {a b : Int} : cmpInt a b = .lt ↔ a < b := by
  unfold cmpInt; split_ifs with h₁ h₂ <;> simp [h₁]

theorem cmpInt_eq_eq {a b : Int} : cmpInt a b = .eq ↔ a = b := by
  unfold cmpInt
  split_ifs with h₁ h₂
  · simp; omega
  · simp [h₂]
  · simp; omega

theorem cmpInt_swap (a b : Int) : (cmpInt a b).swap = cmpInt b a := by
  unfold cmpInt
  split_ifs <;> first | rfl | (exfalso; omega)

theorem cmpInt_lt_trans {a b d : Int} (h₁ : cmpInt a b = .lt)
    (h₂ : cmpInt b d = .lt) : cmpInt a d = .lt := by
  rw [cmpInt_lt] at *; omega

theorem strictCmpNat : StrictCmpLaws cmpNat :=
  ⟨fun _ _ => cmpNat_eq_eq, cmpNat_swap, cmpNat_lt_trans⟩

theorem strictCmpInt : StrictCmpLaws cmpInt :=
  ⟨fun _ _ => cmpInt_eq_eq, cmpInt_swap, cmpInt_lt_trans⟩

theorem StrictCmpLaws.refl {c : α → α → Ordering} (L : StrictCmpLaws c)
    (a : α) : c a a = .eq :=
  (L.eq_iff a a).2 rfl

theorem StrictCmpLaws.comap {c : α → α → Ordering} {c₂ : β → β → Ordering}
    (f : β → α) (hinj : ∀ x y, f x = f y → x = y) (L : StrictCmpLaws c)
    (heq : ∀ x y, c₂ x y = c (f x) (f y)) : StrictCmpLaws c₂ := by
  refine ⟨fun x y => ?_, fun x y => ?_, fun {x y z} h₁ h₂ => ?_⟩
  · rw [heq]
    constructor
    · intro h; exact hinj _ _ ((L.eq_iff _ _).1 h)
    · rintro rfl; exact L.refl _
  · rw [heq, heq]; exact L.symm _ _
  · rw [heq] at h₁ h₂ ⊢; exact L.lt_trans h₁ h₂

theorem strictCmpProd {c : α → α → Ordering} {d : β → β → Ordering}
    (Lc : StrictCmpLaws c) (Ld : StrictCmpLaws d) :
    StrictCmpLaws (fun (x y : α × β) => (c x.1 y.1).then (d x.2 y.2)) := by
  refine ⟨fun x y => ?_, fun x y => ?_, fun {x y z} h₁ h₂ => ?_⟩
  · rw [Ordering.then_eq_eq, Lc.eq_iff, Ld.eq_iff, Prod.ext_iff]
  · rw [Ordering.swap_then, Lc.symm, Ld.symm]
  · rw [Ordering.then_eq_lt] at h₁ h₂ ⊢
    rcases h₁ with h₁ | ⟨h₁e, h₁l⟩ <;> rcases h₂ with h₂ | ⟨h₂e, h₂l⟩
    · exact .inl (Lc.lt_trans h₁ h₂)
    · rw [(Lc.eq_iff _ _).1 h₂e] at h₁; exact .inl h₁
    · rw [← (Lc.eq_iff _ _).1 h₁e] at h₂; exact .inl h₂
    · refine .inr ⟨?_, Ld.lt_trans h₁l h₂l⟩
      rw [(Lc.eq_iff _ _).1 h₁e, (Lc.eq_iff _ _).1 h₂e, Lc.refl]

theorem strictCmpOpt {c : α → α → Ordering} (L : StrictCmpLaws c) :
    StrictCmpLaws (cmpOpt c) := by
  refine ⟨fun x y => ?_, fun x y => ?_, fun {x y z} h₁ h₂ => ?_⟩
  · cases x <;> cases y <;> simp [cmpOpt, L.eq_iff]
  · cases x <;> cases y
    · rfl
    · rfl
    · rfl
    · exact L.symm _ _
  · cases x <;> cases y <;> cases z <;> simp_all [cmpOpt]
    exact L.lt_trans h₁ h₂

theorem cmpList_eq_eq {c : α → α → Ordering} (L : StrictCmpLaws c) :
    ∀ (x y : List α), cmpList c x y = .eq ↔ x = y := by
  intro x
  induction x with
  | nil => intro y; cases y <;> simp [cmpList]
  | cons a as ih =>
    intro y
    cases y with
    | nil => simp [cmpList]
    | cons b bs =>
      simp [cmpList, Ordering.then_eq_eq, L.eq_iff, ih bs]

theorem cmpList_swap {c : α → α → Ordering} (L : StrictCmpLaws c) :
    ∀ (x y : List α), (cmpList c x y).swap = cmpList c y x := by
  intro x
  induction x with
  | nil => intro y; cases y <;> rfl
  | cons a as ih =>
    intro y
    cases y with
    | nil => rfl
    | cons b bs =>
      show ((c a b).then (cmpList c as bs)).swap = _
      rw [Ordering.swap_then, L.symm, ih bs]; rfl

theorem cmpList_lt_trans {c : α → α → Ordering} (L : StrictCmpLaws c) :
    ∀ (x y z : List α), cmpList c x y = .lt → cmpList c y z = .lt →
      cmpList c x z = .lt := by
  intro x
  induction x with
  | nil =>
    intro y z h₁ h₂
    cases y <;> cases z <;> simp_all [cmpList]
  | cons a as ih =>
    intro y z h₁ h₂
    cases y with
    | nil => simp [cmpList] at h₁
    | cons b bs =>
      cases z with
      | nil => simp [cmpList] at h₂
      | cons d ds =>
        simp only [cmpList, Ordering.then_eq_lt] at h₁ h₂ ⊢
        rcases h₁ with h₁ | ⟨h₁e, h₁l⟩ <;> rcases h₂ with h₂ | ⟨h₂e, h₂l⟩
        · exact .inl (L.lt_trans h₁ h₂)
        · rw [(L.eq_iff _ _).1 h₂e] at h₁; exact .inl h₁
        · rw [← (L.eq_iff _ _).1 h₁e] at h₂; exact .inl h₂
        · refine .inr ⟨?_, ih bs ds h₁l h₂l⟩
          rw [(L.eq_iff _ _).1 h₁e, (L.eq_iff _ _).1 h₂e, L.refl]

theorem strictCmpList {c : α → α → Ordering} (L : StrictCmpLaws c) :
    StrictCmpLaws (cmpList c) :=
  ⟨cmpList_eq_eq L, cmpList_swap L,
   fun {a b d} h₁ h₂ => cmpList_lt_trans L a b d h₁ h₂⟩

theorem strictCmpChar : StrictCmpLaws cmpChar :=
  StrictCmpLaws.comap Char.toNat
    (fun _ _ h => Char.eq_of_val_eq (UInt32.toNat.inj h))
    strictCmpNat (fun _ _ => rfl)

theorem strictCmpStr : StrictCmpLaws cmpStr :=
  StrictCmpLaws.comap String.data
    (fun x y h => by cases x; cases y; simp_all)
    (strictCmpList strictCmpChar) (fun _ _ => rfl)

theorem strictNaiveDateTimeCmp : StrictCmpLaws NaiveDateTime.cmp :=
  StrictCmpLaws.comap
    (fun t : NaiveDateTime => (t.year, t.month, t.day, t.hour, t.minute, t.second))
    (fun x y h => by
      cases x; cases y; simp only [Prod.mk.injEq] at h; simp_all)
    (strictCmpProd strictCmpInt <| strictCmpProd strictCmpNat <|
      strictCmpProd strictCmpNat <| strictCmpProd strictCmpNat <|
        strictCmpProd strictCmpNat strictCmpNat)
    (fun _ _ => rfl)

theorem strictPublicKeySigCmp : StrictCmpLaws PublicKeySig.cmp :=
  StrictCmpLaws.comap
    (fun k : PublicKeySig => (k.blob, k.valid_after, k.valid_before))
    (fun x y h => by
      cases x; cases y; simp only [Prod.mk.injEq] at h; simp_all)
    (strictCmpProd strictCmpStr <|
      strictCmpProd (strictCmpOpt strictNaiveDateTimeCmp)
        (strictCmpOpt strictNaiveDateTimeCmp))
    (fun _ _ => rfl)

theorem strictEntrySigCmp : StrictCmpLaws EntrySig.cmp :=
  StrictCmpLaws.comap
    (fun e : EntrySig => (e.principals, e.key))
    (fun x y h => by
      cases x; cases y; simp only [Prod.mk.injEq] at h; simp_all)
    (strictCmpProd (strictCmpList strictCmpStr) strictPublicKeySigCmp)
    (fun _ _ => rfl)

/- ### Entries behave through their signatures -/

theorem cmpOpt_map_to_utc (x y : Option DateTimeFixedOffset) :
    cmpOpt DateTimeFixedOffset.cmp x y
      = cmpOpt NaiveDateTime.cmp (x.map DateTimeFixedOffset.to_utc)
          (y.map DateTimeFixedOffset.to_utc) := by
  cases x <;> cases y <;> rfl

theorem Entry.cmp_sig (a b : Entry) :
    Entry.cmp a b = EntrySig.cmp a.sig b.sig := by
  show (cmpList cmpStr a.principals b.principals).then (PublicKey.cmp a.key b.key)
    = (cmpList cmpStr a.principals b.principals).then (PublicKeySig.cmp _ _)
  rw [show PublicKey.cmp a.key b.key
      = PublicKeySig.cmp (Entry.sig a).key (Entry.sig b).key from ?_]
  show (cmpStr a.key.blob b.key.blob).then _
    = (cmpStr a.key.blob b.key.blob).then _
  rw [show ((cmpOpt DateTimeFixedOffset.cmp a.key.valid_after b.key.valid_after).then
      (cmpOpt DateTimeFixedOffset.cmp a.key.valid_before b.key.valid_before))
      = ((cmpOpt NaiveDateTime.cmp (Entry.sig a).key.valid_after
          (Entry.sig b).key.valid_after).then
        (cmpOpt NaiveDateTime.cmp (Entry.sig a).key.valid_before
          (Entry.sig b).key.valid_before)) from ?_]
  rw [cmpOpt_map_to_utc, cmpOpt_map_to_utc]; rfl

theorem Entry.cmp_eq_iff_sig (a b : Entry) :
    Entry.cmp a b = .eq ↔ a.sig = b.sig := by
  rw [Entry.cmp_sig, strictEntrySigCmp.eq_iff]

theorem Entry.display_sig (e : Entry) :
    Entry.display e = EntrySig.display e.sig := by
  cases e with
  | mk ps k =>
    cases k with
    | mk blob va vb => cases va <;> cases vb <;> rfl

/- ### Ordered insertion lemmas -/

theorem StrictCmpLaws.lt_asymm {c : α → α → Ordering} (L : StrictCmpLaws c)
    {a b : α} (h : c a b = .lt) : c b a ≠ .lt := by
  intro h₂
  have := L.symm a b
  rw [h] at this
  rw [h₂] at this
  exact absurd this (by decide)

theorem StrictCmpLaws.lt_of_gt {c : α → α → Ordering} (L : StrictCmpLaws c)
    {a b : α} (h : c a b = .gt) : c b a = .lt := by
  have hs : (c b a).swap = .gt := by rw [L.symm b a]; exact h
  cases h₂ : c b a
  · rfl
  · rw [h₂] at hs; exact absurd hs (by decide)
  · rw [h₂] at hs; exact absurd hs (by decide)

theorem StrictCmpLaws.ne_of_lt {c : α → α → Ordering} (L : StrictCmpLaws c)
    {a b : α} (h : c a b = .lt) : a ≠ b := by
  rintro rfl
  rw [L.refl] at h
  exact absurd h (by decide)

theorem insertOrd_mem {c : α → α → Ordering} (L : StrictCmpLaws c) :
    ∀ (l : List α) (e x : α), x ∈ insertOrd c l e ↔ x = e ∨ x ∈ l := by
  intro l
  induction l with
  | nil => intro e x; simp [insertOrd]
  | cons a as ih =>
    intro e x
    cases h : c e a with
    | lt => simp only [insertOrd, h]; simp [List.mem_cons]
    | eq =>
      have he : e = a := (L.eq_iff e a).1 h
      subst he
      simp only [insertOrd, h]
      simp [List.mem_cons]
    | gt =>
      simp only [insertOrd, h]
      simp only [List.mem_cons, ih e x]
      tauto

theorem insertOrd_pairwise {c : α → α → Ordering} (L : StrictCmpLaws c) :
    ∀ (l : List α) (e : α),
      List.Pairwise (fun a b => c a b = .lt) l →
      List.Pairwise (fun a b => c a b = .lt) (insertOrd c l e) := by
  intro l
  induction l with
  | nil => intro e _; simp [insertOrd]
  | cons a as ih =>
    intro e hp
    rcases List.pairwise_cons.1 hp with ⟨ha, has⟩
    cases h : c e a with
    | lt =>
      simp only [insertOrd, h]
      refine List.pairwise_cons.2 ⟨?_, hp⟩
      intro x hx
      rcases List.mem_cons.1 hx with rfl | hx
      · exact h
      · exact L.lt_trans h (ha x hx)
    | eq => simp only [insertOrd, h]; exact hp
    | gt =>
      simp only [insertOrd, h]
      refine List.pairwise_cons.2 ⟨?_, ih e has⟩
      intro x hx
      rcases (insertOrd_mem L as e x).1 hx with rfl | hx
      · exact L.lt_of_gt h
      · exact ha x hx

theorem pairwise_lt_ext {c : α → α → Ordering} (L : StrictCmpLaws c) :
    ∀ (l₁ l₂ : List α),
      List.Pairwise (fun a b => c a b = .lt) l₁ →
      List.Pairwise (fun a b => c a b = .lt) l₂ →
      (∀ x, x ∈ l₁ ↔ x ∈ l₂) → l₁ = l₂ := by
  intro l₁
  induction l₁ with
  | nil =>
    intro l₂ _ _ hmem
    cases l₂ with
    | nil => rfl
    | cons b t₂ => exact absurd ((hmem b).2 (List.mem_cons_self b t₂)) (by simp)
  | cons a t₁ ih =>
    intro l₂ hp₁ hp₂ hmem
    cases l₂ with
    | nil => exact absurd ((hmem a).1 (List.mem_cons_self a t₁)) (by simp)
    | cons b t₂ =>
      rcases List.pairwise_cons.1 hp₁ with ⟨ha, hpt₁⟩
      rcases List.pairwise_cons.1 hp₂ with ⟨hb, hpt₂⟩
      have hab : a = b := by
        rcases List.mem_cons.1 ((hmem a).1 (List.mem_cons_self a t₁)) with h | h
        · exact h
        · rcases List.mem_cons.1 ((hmem b).2 (List.mem_cons_self b t₂)) with h₂ | h₂
          · exact h₂.symm
          · exact absurd (hb a h) (L.lt_asymm (ha b h₂))
      subst hab
      have htails : ∀ x, x ∈ t₁ ↔ x ∈ t₂ := by
        intro x
        constructor
        · intro hx
          have hne : x ≠ a := fun hxa => by
            rw [hxa] at hx
            exact absurd (ha a hx) (by rw [L.refl]; decide)
          rcases List.mem_cons.1 ((hmem x).1 (List.mem_cons_of_mem a hx)) with h | h
          · exact absurd h hne
          · exact h
        · intro hx
          have hne : x ≠ a := fun hxa => by
            rw [hxa] at hx
            exact absurd (hb a hx) (by rw [L.refl]; decide)
          rcases List.mem_cons.1 ((hmem x).2 (List.mem_cons_of_mem a hx)) with h | h
          · exact absurd h hne
          · exact h
      rw [ih t₂ hpt₁ hpt₂ htails]

theorem foldl_insertOrd_pairwise {c : α → α → Ordering} (L : StrictCmpLaws c) :
    ∀ (l acc : List α),
      List.Pairwise (fun a b => c a b = .lt) acc →
      List.Pairwise (fun a b => c a b = .lt) (l.foldl (insertOrd c) acc) := by
  intro l
  induction l with
  | nil => intro acc h; exact h
  | cons a as ih =>
    intro acc h
    exact ih (insertOrd c acc a) (insertOrd_pairwise L acc a h)

theorem foldl_insertOrd_mem {c : α → α → Ordering} (L : StrictCmpLaws c) :
    ∀ (l acc : List α) (x : α),
      x ∈ l.foldl (insertOrd c) acc ↔ x ∈ acc ∨ x ∈ l := by
  intro l
  induction l with
  | nil => intro acc x; simp
  | cons a as ih =>
    intro acc x
    show x ∈ as.foldl (insertOrd c) (insertOrd c acc a) ↔ _
    rw [ih, insertOrd_mem L]
    simp [List.mem_cons]
    tauto

theorem map_sig_insertOrd (l : List Entry) (e : Entry) :
    (insertOrd Entry.cmp l e).map Entry.sig
      = insertOrd EntrySig.cmp (l.map Entry.sig) e.sig := by
  induction l with
  | nil => rfl
  | cons a as ih =>
    have hs : EntrySig.cmp e.sig a.sig = Entry.cmp e a := (Entry.cmp_sig e a).symm
    cases h : Entry.cmp e a with
    | lt => simp only [insertOrd, List.map_cons, hs, h]
    | eq => simp only [insertOrd, List.map_cons, hs, h]
    | gt => simp only [insertOrd, List.map_cons, hs, h, ih]

theorem map_sig_foldl (l acc : List Entry) :
    (l.foldl (insertOrd Entry.cmp) acc).map Entry.sig
      = (l.map Entry.sig).foldl (insertOrd EntrySig.cmp) (acc.map Entry.sig) := by
  induction l generalizing acc with
  | nil => rfl
  | cons a as ih =>
    simp only [List.foldl_cons, List.map_cons, ih, map_sig_insertOrd]

theorem render_from_entries (p : String) (l : List Entry) :
    File.render (File.from_entries p l)
      = String.join (((l.map Entry.sig).foldl (insertOrd EntrySig.cmp) []).map
          (fun s => EntrySig.display s ++ "\n")) ++ "\n" := by
  unfold File.render File.from_entries
  have hfun : (fun (e : Entry) => e.display ++ "\n")
      = (fun s => EntrySig.display s ++ "\n") ∘ Entry.sig :=
    funext fun e => by simp [Function.comp, Entry.display_sig]
  rw [hfun, ← List.map_map, map_sig_foldl]
  rfl

theorem from_entries_map_sig_mem (p : String) (l : List Entry) (x : EntrySig) :
    x ∈ (File.from_entries p l).entries.map Entry.sig ↔ x ∈ l.map Entry.sig := by
  unfold File.from_entries
  rw [map_sig_foldl]
  rw [foldl_insertOrd_mem strictEntrySigCmp]
  simp

/-- C5: the bytes written by File::write depend only on the set of distinct
entries (up to the structural equality used by the entry set, which compares
principals, key blob and the validity window instants): two entry sequences
that are mutually included up to that equality render byte-identically;
the stored entries are in strict ascending structural order, hence
duplicate-free, and the stored set represents exactly the input entries. -/
theorem file_bytes_determined_by_entry_set (p : String) (l₁ l₂ : List Entry) :
    ((∀ x ∈ l₁, ∃ y ∈ l₂, Entry.cmp x y = .eq) →
     (∀ x ∈ l₂, ∃ y ∈ l₁, Entry.cmp x y = .eq) →
     File.render (File.from_entries p l₁) = File.render (File.from_entries p l₂)) ∧
    sortedBy Entry.cmp (File.from_entries p l₁).entries ∧
    List.Pairwise (fun a b => Entry.cmp a b ≠ .eq) (File.from_entries p l₁).entries ∧
    (∀ x, (∃ y ∈ (File.from_entries p l₁).entries, Entry.cmp x y = .eq) ↔
      (∃ y ∈ l₁, Entry.cmp x y = .eq)) := by
  have L := strictEntrySigCmp
  have hpw : ∀ (l : List Entry),
      List.Pairwise (fun a b => EntrySig.cmp a b = .lt)
        ((l.map Entry.sig).foldl (insertOrd EntrySig.cmp) []) := by
    intro l
    exact foldl_insertOrd_pairwise L _ [] List.Pairwise.nil
  have hmem : ∀ (l : List Entry) (x : EntrySig),
      x ∈ (l.map Entry.sig).foldl (insertOrd EntrySig.cmp) [] ↔
        x ∈ l.map Entry.sig := by
    intro l x
    rw [foldl_insertOrd_mem L]
    simp
  have hpwE : List.Pairwise (fun a b => Entry.cmp a b = .lt)
      (File.from_entries p l₁).entries := by
    have key : ((l₁.foldl (insertOrd Entry.cmp) []).map Entry.sig)
        = (l₁.map Entry.sig).foldl (insertOrd EntrySig.cmp) [] :=
      map_sig_foldl l₁ []
    have h₁ := hpw l₁
    rw [← key, List.pairwise_map] at h₁
    exact h₁.imp (fun h => by rw [Entry.cmp_sig]; exact h)
  refine ⟨?_, ?_, ?_, ?_⟩
  · intro h₁ h₂
    rw [render_from_entries, render_from_entries]
    have hset : ((l₁.map Entry.sig).foldl (insertOrd EntrySig.cmp) [])
        = ((l₂.map Entry.sig).foldl (insertOrd EntrySig.cmp) []) := by
      apply pairwise_lt_ext L _ _ (hpw l₁) (hpw l₂)
      intro x
      rw [hmem l₁ x, hmem l₂ x]
      constructor
      · intro hx
        rcases List.mem_map.1 hx with ⟨a, ha, rfl⟩
        rcases h₁ a ha with ⟨b, hb, hab⟩
        rw [Entry.cmp_eq_iff_sig] at hab
        rw [hab]
        exact List.mem_map_of_mem Entry.sig hb
      · intro hx
        rcases List.mem_map.1 hx with ⟨a, ha, rfl⟩
        rcases h₂ a ha with ⟨b, hb, hab⟩
        rw [Entry.cmp_eq_iff_sig] at hab
        rw [hab]
        exact List.mem_map_of_mem Entry.sig hb
    rw [hset]
  · exact hpwE.chain'
  · exact hpwE.imp (fun h => by rw [h]; decide)
  · intro x
    have hx : ∀ (E : List Entry), (∃ y ∈ E, Entry.cmp x y = .eq) ↔
        x.sig ∈ E.map Entry.sig := by
      intro E
      constructor
      · rintro ⟨y, hy, hxy⟩
        rw [Entry.cmp_eq_iff_sig] at hxy
        rw [hxy]
        exact List.mem_map_of_mem Entry.sig hy
      · intro h
        rcases List.mem_map.1 h with ⟨y, hy, hxy⟩
        exact ⟨y, hy, (Entry.cmp_eq_iff_sig x y).2 hxy.symm⟩
    rw [hx, hx, from_entries_map_sig_mem]

/-- Witness for C5 at concrete inputs: the same entry set presented in a
different order, with a duplicate, and with a different stored offset
renders byte-identically. -/
theorem file_bytes_determined_by_entry_set_witness :
    File.render (File.from_entries "f" [sampleEntryA, sampleEntryB 0])
      = File.render (File.from_entries "f" [sampleEntryB 3600, sampleEntryA, sampleEntryA]) :=
  (file_bytes_determined_by_entry_set "f" [sampleEntryA, sampleEntryB 0]
    [sampleEntryB 3600, sampleEntryA, sampleEntryA]).1 (by decide) (by decide)

/-- C4: the serialized form of every entry is the principals joined by
commas, an optional valid-after timestamp and an optional valid-before
timestamp in that order, each present exactly when the key carries it, then
a space and the key blob; timestamps are rendered YYYYMMDDHHMMSS with a
trailing Z in UTC, independently of the offset stored on the value. -/
theorem entry_serialization_format (e : Entry) (o₁ o₂ : Int) :
    Entry.display e = entrySpecLine e ∧
    Entry.display (e.withOffsets o₁ o₂) = Entry.display e := by
  constructor
  · cases e with
    | mk ps k =>
      cases k with
      | mk blob va vb => cases va <;> cases vb <;> rfl
  · cases e with
    | mk ps k =>
      cases k with
      | mk blob va vb => cases va <;> cases vb <;> rfl

/-- C9: constructing an entry with an empty principals list is a hard
failure, and with a non-empty list the entry holds exactly the given
principals and key. -/
theorem entry_new_nonempty_principals (principals : List String) (key : PublicKey) :
    Entry.new [] key = none ∧
    (principals ≠ [] →
      Entry.new principals key = some { principals := principals, key := key }) := by
  constructor
  · rfl
  · intro h
    cases principals with
    | nil => exact absurd rfl h
    | cons p ps => rfl

/-- Witness for C9 at a concrete input. -/
theorem entry_new_nonempty_principals_witness :
    Entry.new ["a@example.com"] sampleKeyA
      = some { principals := ["a@example.com"], key := sampleKeyA } :=
  (entry_new_nonempty_principals ["a@example.com"] sampleKeyA).2 (by decide)

/- ### Orchestrator lemmas -/

theorem handleSourceOutcome_error {e : Error} (h : e ≠ .UserNotFound) :
    handleSourceOutcome (.error e) = .error e := by
  cases e <;> first | rfl | exact absurd rfl h

theorem handleSourceOutcome_ne_unf (r : Except Error (List PublicKey)) :
    handleSourceOutcome r ≠ .error .UserNotFound := by
  cases r with
  | ok ks => simp [handleSourceOutcome]
  | error e => cases e <;> simp [handleSourceOutcome]

theorem get_keys_error_ne_unf :
    ∀ (outcomes : List (Except Error (List PublicKey))) (e : Error),
      Signer.get_keys outcomes = .error e → e ≠ .UserNotFound := by
  intro outcomes
  induction outcomes with
  | nil => intro e h; simp [Signer.get_keys] at h
  | cons r rs ih =>
    intro e h
    rw [show Signer.get_keys (r :: rs)
        = (match handleSourceOutcome r with
           | .error e => .error e
           | .ok ks =>
             match Signer.get_keys rs with
             | .error e => .error e
             | .ok rest => .ok (ks ++ rest)) from rfl] at h
    cases hr : handleSourceOutcome r with
    | error e₂ =>
      rw [hr] at h
      cases h
      rintro rfl
      exact handleSourceOutcome_ne_unf r hr
    | ok ks =>
      rw [hr] at h
      cases hrs : Signer.get_keys rs with
      | error e₂ =>
        rw [hrs] at h
        cases h
        exact ih _ hrs
      | ok rest => rw [hrs] at h; cases h

theorem get_keys_hard_mem :
    ∀ (outcomes : List (Except Error (List PublicKey))) (e : Error),
      Except.error e ∈ outcomes → e ≠ .UserNotFound →
      isOkE (Signer.get_keys outcomes) = false := by
  intro outcomes
  induction outcomes with
  | nil => intro e h _; simp at h
  | cons r rs ih =>
    intro e hmem hne
    rw [show Signer.get_keys (r :: rs)
        = (match handleSourceOutcome r with
           | .error e => .error e
           | .ok ks =>
             match Signer.get_keys rs with
             | .error e => .error e
             | .ok rest => .ok (ks ++ rest)) from rfl]
    rcases List.mem_cons.1 hmem with heq | hmem₂
    · rw [← heq, handleSourceOutcome_error hne]
      rfl
    · cases hr : handleSourceOutcome r with
      | error e₂ => rfl
      | ok ks =>
        cases hrs : Signer.get_keys rs with
        | error e₂ => rfl
        | ok rest =>
          have := ih e hmem₂ hne
          rw [hrs] at this
          exact absurd this (by simp [isOkE])

/-- C1: a per-source UserNotFound is a soft failure that contributes zero
keys and leaves the signer resolution equal to one where the source
returned no keys; a per-source error of any other kind makes the whole
resolution return an error; and when every source returns keys the
resolution returns their concatenation. -/
theorem signer_source_outcome_policy
    (pre post outcomes : List (Except Error (List PublicKey))) (e : Error)
    (kss : List (List PublicKey)) :
    Signer.get_keys (pre ++ Except.error Error.UserNotFound :: post)
      = Signer.get_keys (pre ++ Except.ok [] :: post) ∧
    (Except.error e ∈ outcomes → e ≠ Error.UserNotFound →
      isOkE (Signer.get_keys outcomes) = false) ∧
    Signer.get_keys (kss.map Except.ok) = Except.ok kss.flatten := by
  refine ⟨?_, fun hmem hne => get_keys_hard_mem outcomes e hmem hne, ?_⟩
  · induction pre with
    | nil => rfl
    | cons r rs ih =>
      show Signer.get_keys (r :: (rs ++ _)) = Signer.get_keys (r :: (rs ++ _))
      rw [show ∀ (x : Except Error (List PublicKey)) xs, Signer.get_keys (x :: xs)
          = (match handleSourceOutcome x with
             | .error e => .error e
             | .ok ks =>
               match Signer.get_keys xs with
               | .error e => .error e
               | .ok rest => .ok (ks ++ rest)) from fun _ _ => rfl,
        ih]
      rw [show ∀ (x : Except Error (List PublicKey)) xs, Signer.get_keys (x :: xs)
          = (match handleSourceOutcome x with
             | .error e => .error e
             | .ok ks =>
               match Signer.get_keys xs with
               | .error e => .error e
               | .ok rest => .ok (ks ++ rest)) from fun _ _ => rfl]
  · induction kss with
    | nil => rfl
    | cons ks rest ih =>
      show Signer.get_keys (Except.ok ks :: rest.map Except.ok) = _
      rw [show ∀ (x : Except Error (List PublicKey)) xs, Signer.get_keys (x :: xs)
          = (match handleSourceOutcome x with
             | .error e => .error e
             | .ok ks =>
               match Signer.get_keys xs with
               | .error e => .error e
               | .ok rest => .ok (ks ++ rest)) from fun _ _ => rfl,
        ih]
      simp [handleSourceOutcome]

/-- Witness for C1 at concrete inputs: a hard connection error makes the
signer resolution fail. -/
theorem signer_source_outcome_policy_witness :
    isOkE (Signer.get_keys [Except.ok [sampleKeyA],
      Except.error Error.ConnectionError]) = false :=
  (signer_source_outcome_policy [] [] [Except.ok [sampleKeyA],
    Except.error Error.ConnectionError] Error.ConnectionError []).2.1
    (by simp) (by decide)

theorem optionList_entry_new (ps : List String) (h : ps ≠ []) :
    ∀ (keys : List PublicKey),
      optionList (keys.map (Entry.new ps))
        = some (keys.map (fun k => { principals := ps, key := k })) := by
  intro keys
  induction keys with
  | nil => rfl
  | cons k ks ih =>
    have hnew : Entry.new ps k = some { principals := ps, key := k } := by
      cases ps with
      | nil => exact absurd rfl h
      | cons p pt => rfl
    simp only [List.map_cons, hnew, optionList, ih]

theorem signer_entries_hard (s : SignerRun) (o : Except Error (List PublicKey))
    (e : Error) (ho : o ∈ s.outcomes) (he : o = .error e)
    (hne : e ≠ .UserNotFound) :
    ∃ e₂, Signer.get_entries s = .error e₂ ∧ e₂ ≠ .UserNotFound := by
  subst he
  have hko := get_keys_hard_mem s.outcomes e ho hne
  cases hk : Signer.get_keys s.outcomes with
  | ok keys => rw [hk] at hko; exact absurd hko (by simp [isOkE])
  | error e₂ =>
    refine ⟨e₂, ?_, get_keys_error_ne_unf s.outcomes e₂ hk⟩
    unfold Signer.get_entries
    rw [hk]

theorem signer_entries_not_panic (s : SignerRun) (hp : s.principals ≠ []) :
    Signer.get_entries s ≠ .panic := by
  unfold Signer.get_entries
  cases hk : Signer.get_keys s.outcomes with
  | error e₂ => simp
  | ok keys => simp [optionList_entry_new s.principals hp keys]

theorem signer_entries_error_ne_unf (s : SignerRun) (e : Error)
    (h : Signer.get_entries s = .error e) : e ≠ .UserNotFound := by
  unfold Signer.get_entries at h
  cases hk : Signer.get_keys s.outcomes with
  | error e₃ =>
    rw [hk] at h
    have h₂ : RunResult.error e₃ = RunResult.error e := h
    cases h₂
    exact get_keys_error_ne_unf s.outcomes e hk
  | ok keys =>
    rw [hk] at h
    have h₂ : (match optionList (keys.map (Entry.new s.principals)) with
        | none => RunResult.panic
        | some entries => RunResult.ok entries) = RunResult.error e := h
    cases hol : optionList (keys.map (Entry.new s.principals)) with
    | none => rw [hol] at h₂; cases h₂
    | some es => rw [hol] at h₂; cases h₂

theorem get_entries_all_hard :
    ∀ (signers : List SignerRun) (s : SignerRun)
      (o : Except Error (List PublicKey)) (e : Error),
      (∀ t ∈ signers, t.principals ≠ []) → s ∈ signers → o ∈ s.outcomes →
      o = .error e → e ≠ .UserNotFound →
      ∃ e₂, get_entries signers = .error e₂ ∧ e₂ ≠ .UserNotFound := by
  intro signers
  induction signers with
  | nil => intro s o e _ hs; simp at hs
  | cons t ts ih =>
    intro s o e hp hs ho he hne
    rw [show get_entries (t :: ts)
        = (match Signer.get_entries t with
           | .panic => .panic
           | .error e => .error e
           | .ok es =>
             match get_entries ts with
             | .panic => .panic
             | .error e => .error e
             | .ok rest => .ok (es ++ rest)) from rfl]
    rcases List.mem_cons.1 hs with rfl | hs₂
    · obtain ⟨e₂, he₂, hne₂⟩ := signer_entries_hard s o e ho he hne
      rw [he₂]
      exact ⟨e₂, rfl, hne₂⟩
    · cases hth : Signer.get_entries t with
      | panic =>
        exact absurd hth (signer_entries_not_panic t (hp t (List.mem_cons_self t ts)))
      | error e₂ =>
        exact ⟨e₂, rfl, signer_entries_error_ne_unf t e₂ hth⟩
      | ok es =>
        obtain ⟨e₂, he₂, hne₂⟩ :=
          ih s o e (fun u hu => hp u (List.mem_cons_of_mem t hu)) hs₂ ho he hne
        rw [he₂]
        exact ⟨e₂, rfl, hne₂⟩

/-- C2: when any per-signer per-source task fails with an error other than
UserNotFound, the update operation returns an error (itself never
UserNotFound) and the target file contents are left untouched: the file is
neither created nor truncated, because writing only happens after all
entries resolved. The hypothesis that every signer carries at least one
principal reflects the validated configuration records the orchestrator
consumes. -/
theorem update_hard_failure_leaves_file_untouched (path : String)
    (fs : Option String) (signers : List SignerRun) (s : SignerRun)
    (o : Except Error (List PublicKey)) (e : Error) :
    (∀ t ∈ signers, t.principals ≠ []) → s ∈ signers → o ∈ s.outcomes →
    o = .error e → e ≠ .UserNotFound →
    RunResult.isHardError (update path fs signers).1 = true ∧
    (update path fs signers).2 = fs := by
  intro hp hs ho he hne
  obtain ⟨e₂, he₂, hne₂⟩ := get_entries_all_hard signers s o e hp hs ho he hne
  unfold update
  rw [he₂]
  exact ⟨by simp [RunResult.isHardError, hne₂], rfl⟩

/-- Witness for C2 at concrete inputs: a connection error on the only
source of the only signer leaves existing file contents untouched. -/
theorem update_hard_failure_leaves_file_untouched_witness :
    RunResult.isHardError (update "f" (some "previous contents")
      [⟨"alice", ["p@x"], [Except.error Error.ConnectionError]⟩]).1 = true ∧
    (update "f" (some "previous contents")
      [⟨"alice", ["p@x"], [Except.error Error.ConnectionError]⟩]).2
      = some "previous contents" :=
  update_hard_failure_leaves_file_untouched "f" (some "previous contents")
    [⟨"alice", ["p@x"], [Except.error Error.ConnectionError]⟩]
    ⟨"alice", ["p@x"], [Except.error Error.ConnectionError]⟩
    (Except.error Error.ConnectionError) Error.ConnectionError
    (by intro t ht; simp at ht; rw [ht]; simp)
    (by simp) (by simp) rfl (by decide)

theorem get_keys_all_soft :
    ∀ (outcomes : List (Except Error (List PublicKey))),
      (∀ o ∈ outcomes, o = .ok [] ∨ o = .error .UserNotFound) →
      Signer.get_keys outcomes = .ok [] := by
  intro outcomes
  induction outcomes with
  | nil => intro _; rfl
  | cons r rs ih =>
    intro h
    have hr : handleSourceOutcome r = .ok [] := by
      rcases h r (List.mem_cons_self r rs) with rfl | rfl <;> rfl
    rw [show Signer.get_keys (r :: rs)
        = (match handleSourceOutcome r with
           | .error e => .error e
           | .ok ks =>
             match Signer.get_keys rs with
             | .error e => .error e
             | .ok rest => .ok (ks ++ rest)) from rfl,
      hr, ih (fun o ho => h o (List.mem_cons_of_mem r ho))]
    rfl

theorem get_entries_all_soft :
    ∀ (signers : List SignerRun),
      (∀ s ∈ signers, ∀ o ∈ s.outcomes, o = .ok [] ∨ o = .error .UserNotFound) →
      get_entries signers = .ok [] := by
  intro signers
  induction signers with
  | nil => intro _; rfl
  | cons t ts ih =>
    intro h
    have ht : Signer.get_entries t = .ok [] := by
      unfold Signer.get_entries
      rw [get_keys_all_soft t.outcomes (h t (List.mem_cons_self t ts))]
      rfl
    rw [show get_entries (t :: ts)
        = (match Signer.get_entries t with
           | .panic => .panic
           | .error e => .error e
           | .ok es =>
             match get_entries ts with
             | .panic => .panic
             | .error e => .error e
             | .ok rest => .ok (es ++ rest)) from rfl,
      ht, ih (fun s hs => h s (List.mem_cons_of_mem t hs))]
    rfl

/-- C10: when every per-signer per-source call yields an empty key list or
fails softly with UserNotFound, the update succeeds and overwrites the
target file with zero entries, writing exactly one newline character and
erasing whatever the file previously contained. -/
theorem update_all_soft_overwrites_with_empty_file (path : String)
    (fs : Option String) (signers : List SignerRun) :
    (∀ s ∈ signers, ∀ o ∈ s.outcomes, o = .ok [] ∨ o = .error .UserNotFound) →
    update path fs signers = (.ok (), some "\n") := by
  intro h
  unfold update
  rw [get_entries_all_soft signers h]
  rfl

/-- Witness for C10 at concrete inputs: a signer whose only source reports
UserNotFound makes the update erase the previous contents. -/
theorem update_all_soft_overwrites_with_empty_file_witness :
    update "f" (some "previously trusted entries")
      [⟨"alice", ["p@x"], [Except.error Error.UserNotFound]⟩]
      = (.ok (), some "\n") :=
  update_all_soft_overwrites_with_empty_file "f"
    (some "previously trusted entries")
    [⟨"alice", ["p@x"], [Except.error Error.UserNotFound]⟩]
    (by intro s hs o ho; simp at hs; rw [hs] at ho; simp at ho; simp [ho])

/-- C6: the shared classifier maps a connection failure or timeout to
ConnectionError; a status error with a 5xx status to ServerError wrapping
the status; a status error with a 4xx status to ClientError wrapping the
status; an undecodable body to the InvalidResponseBody ServerError; and
panics on every reqwest error shape outside these cases. -/
theorem error_classifier_taxonomy (e : ReqwestError) (s : Nat) :
    ((e.is_connect = true ∨ e.is_timeout = true) →
      Error.fromReqwest e = some .ConnectionError) ∧
    (e.is_connect = false → e.is_timeout = false → e.is_status = true →
      e.status = some s → 500 ≤ s → s ≤ 599 →
      Error.fromReqwest e = some (.ServerError (.StatusCode s))) ∧
    (e.is_connect = false → e.is_timeout = false → e.is_status = true →
      e.status = some s → 400 ≤ s → s ≤ 499 →
      Error.fromReqwest e = some (.ClientError s)) ∧
    (e.is_connect = false → e.is_timeout = false → e.is_status = false →
      (e.is_body = true ∨ e.is_decode = true) →
      Error.fromReqwest e = some (.ServerError .InvalidResponseBody)) ∧
    (e.is_connect = false → e.is_timeout = false → e.is_status = false →
      e.is_body = false → e.is_decode = false →
      Error.fromReqwest e = none) := by
  refine ⟨?_, ?_, ?_, ?_, ?_⟩
  · intro h
    unfold Error.fromReqwest
    rcases h with h | h <;> simp [h]
  · intro hc ht hs hst h₁ h₂
    unfold Error.fromReqwest
    rw [hc, ht, hs, hst]
    simp only [Bool.false_or, Bool.or_self, if_true, if_false]
    have hsrv : statusIsServerError s = true := by
      simp [statusIsServerError]; omega
    simp [hsrv]
  · intro hc ht hs hst h₁ h₂
    unfold Error.fromReqwest
    rw [hc, ht, hs, hst]
    have hsrv : statusIsServerError s = false := by
      simp [statusIsServerError]; omega
    have hcl : statusIsClientError s = true := by
      simp [statusIsClientError]; omega
    simp [hsrv, hcl]
  · intro hc ht hs hb
    unfold Error.fromReqwest
    rw [hc, ht, hs]
    rcases hb with hb | hb <;> simp [hb]
  · intro hc ht hs hb hd
    unfold Error.fromReqwest
    rw [hc, ht, hs, hb, hd]
    simp

/-- Witness for C6 at concrete inputs: a 503 status error classifies as a
ServerError wrapping the status. -/
theorem error_classifier_taxonomy_witness :
    Error.fromReqwest (statusError 503) = some (.ServerError (.StatusCode 503)) :=
  (error_classifier_taxonomy (statusError 503) 503).2.1 rfl rfl rfl rfl
    (by omega) (by omega)

/-- C3: for every key array returned by the GitLab API, exactly the keys
whose usage_type is signing or auth_and_signing are kept (auth-only keys
are discarded), each converted key carries the API key string as blob, the
expires_at instant as valid_before when present, and never a valid_after;
a single page resolution returns exactly these converted keys. -/
theorem gitlab_signing_filter (page : List GitlabApiSshKey) (u : Url) :
    gitlabPageKeys page = gitlabPageKeysSpec page ∧
    (∀ pk ∈ gitlabPageKeys page, pk.valid_after = none) ∧
    Gitlab.get_keys_by_username
      (fun _ => .responded { status := 200, link := none, keys := some page })
      1 (some u) = .ok (gitlabPageKeysSpec page) := by
  have h₁ : gitlabPageKeys page = gitlabPageKeysSpec page := by
    unfold gitlabPageKeys gitlabPageKeysSpec
    congr 1
    apply List.filter_congr
    intro k _
    cases h : k.usage_type <;> simp [ApiSshKeyUsage.is_signing, h]
  refine ⟨h₁, ?_, ?_⟩
  · intro pk hpk
    unfold gitlabPageKeys at hpk
    rcases List.mem_map.1 hpk with ⟨k, _, rfl⟩
    rfl
  · have hrun : Gitlab.get_keys_by_username
        (fun _ => .responded { status := 200, link := none, keys := some page })
        1 (some u) = .ok (gitlabPageKeys page ++ []) := rfl
    rw [hrun, List.append_nil, h₁]

/-- Witness for C3 at a concrete input: a signing key on a page keeps no
valid_after instant. -/
theorem gitlab_signing_filter_witness :
    (PublicKey.ofGitlabApiSshKey
        ⟨"ssh-rsa AAAB", none, ApiSshKeyUsage.signing⟩).valid_after = none :=
  (gitlab_signing_filter [⟨"ssh-rsa AAAB", none, ApiSshKeyUsage.signing⟩]
      "https://gitlab.example.com/api/v4/users/tanuki/keys").2.1
    (PublicKey.ofGitlabApiSshKey ⟨"ssh-rsa AAAB", none, ApiSshKeyUsage.signing⟩)
    (by decide)

/- ### Pagination loop step lemmas -/

theorem github_loop_error (server : Url → ReqwestResult GithubResponse)
    (fuel : Nat) (cur : Url) (e : Error)
    (hm : Github.make_api_request (server cur) = .error e) :
    Github.get_keys_by_username server (fuel + 1) (some cur) = .error e := by
  unfold Github.get_keys_by_username
  rw [hm]

theorem github_loop_step (server : Url → ReqwestResult GithubResponse)
    (fuel : Nat) (cur : Url) (r : GithubResponse) (ks : List GithubApiSshKey)
    (hm : Github.make_api_request (server cur) = .ok r)
    (hk : r.keys = some ks) :
    Github.get_keys_by_username server (fuel + 1) (some cur)
      = (match Github.get_keys_by_username server fuel
            (match (match next_url_from_link_header r.link with
                    | .ok u => u
                    | .error _ => none) with
             | some candidate => if candidate ≠ cur then some candidate else none
             | none => none) with
         | .panic => .panic
         | .error e => .error e
         | .ok rest => .ok (ks.map PublicKey.ofGithubApiSshKey ++ rest)) := by
  simp only [Github.get_keys_by_username, hm, hk]

theorem gitlab_loop_step (server : Url → ReqwestResult GitlabResponse)
    (fuel : Nat) (cur : Url) (r : GitlabResponse) (ks : List GitlabApiSshKey)
    (hm : handle_gitlab_errors (server cur) = .ok r)
    (hk : r.keys = some ks) :
    Gitlab.get_keys_by_username server (fuel + 1) (some cur)
      = (match Gitlab.get_keys_by_username server fuel
            (match (match next_url_from_link_header r.link with
                    | .ok u => u
                    | .error _ => none) with
             | some candidate => if candidate ≠ cur then some candidate else none
             | none => none) with
         | .panic => .panic
         | .error e => .error e
         | .ok rest => .ok (gitlabPageKeys ks ++ rest)) := by
  simp only [Gitlab.get_keys_by_username, hm, hk]

/-- Counterexample to C7 as stated: with the x-ratelimit-remaining header
present but not parseable as an integer, Github::get_keys_by_username
returns an InvalidResponseHeader server error instead of ignoring the
failure. -/
theorem ratelimit_parse_failure_counterexample :
    Github.get_keys_by_username
      (fun _ => .responded
        { status := 200, message := none, link := none
          ratelimitRemaining := some (.valid "many"), ratelimitReset := none
          keys := some [] })
      1 (some "https://api.github.com/users/octocat/ssh_signing_keys")
      = .error (.ServerError (.InvalidResponseHeader "x-ratelimit-remaining"
          "value is not valid")) := by
  decide

/-- C7 amended: when present and parseable the rate limit headers are
parsed and logged without failing the resolution, and the absence of either
header is ignored; but a present header whose value fails to parse is an
InvalidResponseHeader server error that makes get_keys_by_username return
an error. -/
theorem ratelimit_headers_amended_policy (s : String) (n : Nat) (m : Int)
    (hother : Option HeaderValue)
    (server : Url → ReqwestResult GithubResponse) (r : GithubResponse)
    (fuel : Nat) (cur : Url) (e : Error) :
    log_ratelimit none none = .ok () ∧
    (parseUsize s = some n → log_ratelimit (some (.valid s)) none = .ok ()) ∧
    (parseI64 s = some m → log_ratelimit none (some (.valid s)) = .ok ()) ∧
    (parseUsize s = none →
      log_ratelimit (some (.valid s)) hother
        = .error (.ServerError (.InvalidResponseHeader "x-ratelimit-remaining"
            "value is not valid"))) ∧
    (handle_github_errors (server cur) = .ok r →
      log_ratelimit r.ratelimitRemaining r.ratelimitReset = .error e →
      Github.get_keys_by_username server (fuel + 1) (some cur) = .error e) := by
  refine ⟨rfl, ?_, ?_, ?_, ?_⟩
  · intro h
    simp [log_ratelimit, parse_header_value, get_header_value, h, Bind.bind,
      Except.bind]
  · intro h
    simp [log_ratelimit, parse_header_value, get_header_value, h, Bind.bind,
      Except.bind]
  · intro h
    simp [log_ratelimit, parse_header_value, get_header_value, h, Bind.bind,
      Except.bind]
  · intro h₁ h₂
    have hm : Github.make_api_request (server cur) = .error e := by
      simp only [Github.make_api_request, h₁, h₂]
    exact github_loop_error server fuel cur e hm

/-- Witness for the amended C7 at concrete inputs: a parseable remaining
header with an absent reset header is logged without failing. -/
theorem ratelimit_headers_amended_policy_witness :
    log_ratelimit (some (.valid "42")) none = .ok () :=
  (ratelimit_headers_amended_policy "42" 42 0 none
    (fun _ => .failed decodeError)
    { status := 200, message := none, link := none
      ratelimitRemaining := none, ratelimitReset := none, keys := none }
    0 "https://api.github.com" Error.ConnectionError).2.1 (by decide)

/-- C8: for both adapters, a rel next URL equal to the URL just fetched
stops the pagination loop with the keys collected so far; a next URL
different from the one just fetched is followed; an absent link header or
one whose parse fails also stops pagination. -/
theorem pagination_cycle_guard
    (gserver : Url → ReqwestResult GithubResponse)
    (lserver : Url → ReqwestResult GitlabResponse)
    (fuel : Nat) (cur nxt : Url)
    (gr : GithubResponse) (lr : GitlabResponse)
    (gks : List GithubApiSshKey) (lks : List GitlabApiSshKey) (err : Error) :
    (Github.make_api_request (gserver cur) = .ok gr → gr.keys = some gks →
      ((next_url_from_link_header gr.link = .ok (some cur) →
        Github.get_keys_by_username gserver (fuel + 1) (some cur)
          = .ok (gks.map PublicKey.ofGithubApiSshKey)) ∧
       (next_url_from_link_header gr.link = .ok (some nxt) → nxt ≠ cur →
        Github.get_keys_by_username gserver (fuel + 1) (some cur)
          = (match Github.get_keys_by_username gserver fuel (some nxt) with
             | .panic => .panic
             | .error e => .error e
             | .ok rest => .ok (gks.map PublicKey.ofGithubApiSshKey ++ rest))) ∧
       (next_url_from_link_header gr.link = .ok none ∨
          next_url_from_link_header gr.link = .error err →
        Github.get_keys_by_username gserver (fuel + 1) (some cur)
          = .ok (gks.map PublicKey.ofGithubApiSshKey)))) ∧
    (handle_gitlab_errors (lserver cur) = .ok lr → lr.keys = some lks →
      ((next_url_from_link_header lr.link = .ok (some cur) →
        Gitlab.get_keys_by_username lserver (fuel + 1) (some cur)
          = .ok (gitlabPageKeys lks)) ∧
       (next_url_from_link_header lr.link = .ok (some nxt) → nxt ≠ cur →
        Gitlab.get_keys_by_username lserver (fuel + 1) (some cur)
          = (match Gitlab.get_keys_by_username lserver fuel (some nxt) with
             | .panic => .panic
             | .error e => .error e
             | .ok rest => .ok (gitlabPageKeys lks ++ rest))) ∧
       (next_url_from_link_header lr.link = .ok none ∨
          next_url_from_link_header lr.link = .error err →
        Gitlab.get_keys_by_username lserver (fuel + 1) (some cur)
          = .ok (gitlabPageKeys lks)))) := by
  constructor
  · intro hm hk
    refine ⟨?_, ?_, ?_⟩
    · intro hlink
      rw [github_loop_step gserver fuel cur gr gks hm hk, hlink]
      simp [Github.get_keys_by_username]
    · intro hlink hne
      rw [github_loop_step gserver fuel cur gr gks hm hk, hlink]
      simp [hne]
    · intro hlink
      rcases hlink with hlink | hlink <;>
        rw [github_loop_step gserver fuel cur gr gks hm hk, hlink] <;>
        simp [Github.get_keys_by_username]
  · intro hm hk
    refine ⟨?_, ?_, ?_⟩
    · intro hlink
      rw [gitlab_loop_step lserver fuel cur lr lks hm hk, hlink]
      simp [Gitlab.get_keys_by_username]
    · intro hlink hne
      rw [gitlab_loop_step lserver fuel cur lr lks hm hk, hlink]
      simp [hne]
    · intro hlink
      rcases hlink with hlink | hlink <;>
        rw [gitlab_loop_step lserver fuel cur lr lks hm hk, hlink] <;>
        simp [Gitlab.get_keys_by_username]

/-- Witness for C8 at concrete inputs: on both adapters a link header whose
next URL equals the fetched URL stops pagination after one request. -/
theorem pagination_cycle_guard_witness :
    Github.get_keys_by_username
      (fun _ => .responded
        { status := 200, message := none
          link := some (.valid
            "<https://api.github.com/users/octocat/ssh_signing_keys>; rel=\"next\"")
          ratelimitRemaining := none, ratelimitReset := none, keys := some [] })
      1 (some "https://api.github.com/users/octocat/ssh_signing_keys") = .ok [] ∧
    Gitlab.get_keys_by_username
      (fun _ => .responded
        { status := 200
          link := some (.valid
            "<https://gitlab.example.com/api/v4/users/tanuki/keys>; rel=\"next\"")
          keys := some [] })
      1 (some "https://gitlab.example.com/api/v4/users/tanuki/keys") = .ok [] := by
  constructor
  · exact ((pagination_cycle_guard
      (fun _ => .responded
        { status := 200, message := none
          link := some (.valid
            "<https://api.github.com/users/octocat/ssh_signing_keys>; rel=\"next\"")
          ratelimitRemaining := none, ratelimitReset := none, keys := some [] })
      (fun _ => .failed decodeError)
      0 "https://api.github.com/users/octocat/ssh_signing_keys"
      "https://api.github.com/users/octocat/ssh_signing_keys"
      { status := 200, message := none
        link := some (.valid
          "<https://api.github.com/users/octocat/ssh_signing_keys>; rel=\"next\"")
        ratelimitRemaining := none, ratelimitReset := none, keys := some [] }
      { status := 200, link := none, keys := none } [] []
      Error.ConnectionError).1 (by decide) (by decide)).1 (by decide)
  · exact ((pagination_cycle_guard
      (fun _ => .failed decodeError)
      (fun _ => .responded
        { status := 200
          link := some (.valid
            "<https://gitlab.example.com/api/v4/users/tanuki/keys>; rel=\"next\"")
          keys := some [] })
      0 "https://gitlab.example.com/api/v4/users/tanuki/keys"
      "https://gitlab.example.com/api/v4/users/tanuki/keys"
      { status := 200, message := none, link := none
        ratelimitRemaining := none, ratelimitReset := none, keys := none }
      { status := 200
        link := some (.valid
          "<https://gitlab.example.com/api/v4/users/tanuki/keys>; rel=\"next\"")
        keys := some [] } [] []
      Error.ConnectionError).2 (by decide) (by decide)).1 (by decide)
